import Mathlib

/-!
Shallow embedding of the `down_sample` package (files `lttb.py` and `ltd.py`)
over exact rational arithmetic.  Floating-point values of the source are
modelled as `ℚ`; numpy arrays of shape (n, 2) as `List Point`.  Operations
that raise a Python exception at runtime (out-of-range indexing, `min`/
`argmax` of an empty sequence, division by zero) are modelled as `Option`
failures that propagate to the `RunResult.crash` outcome.  Input validation
failures (the `ValueError`s raised by the explicit checks at the top of
`lttb` and `ltd`) are modelled by `RunResult.err` with the spec's error
taxonomy.  The input representation `List Point` is 2-column by
construction, so the `data.shape[1] != 2` check (`ErrorKind.ShapeMismatch`)
can never fire in the model.
-/

namespace DownSample

/-- A data point: a row `(x, y)` of the input array. -/
abbrev Point : Type := ℚ × ℚ

/-- Error taxonomy of the spec (section 7). -/
inductive ErrorKind : Type
  | ShapeMismatch : ErrorKind
  | NotSorted : ErrorKind
  | OutOfRange : ErrorKind
  | TooFew : ErrorKind
deriving DecidableEq, Repr

/-- Outcome of one call: a validation error, an uncaught runtime exception,
or a successfully produced output array. -/
inductive RunResult : Type
  | err : ErrorKind → RunResult
  | crash : RunResult
  | ok : List Point → RunResult
deriving DecidableEq, Repr

/-- Sizes of the `k` sections of `np.array_split` applied to a list of
length `q * k + r`: the first `r` sections get `q + 1` elements, the rest
get `q`. -/
def splitSizes (q : ℕ) : ℕ → ℕ → List ℕ
  | 0, _ => []
  | k + 1, 0 => q :: splitSizes q k 0
  | k + 1, r + 1 => (q + 1) :: splitSizes q k r

/-- Cut a list into consecutive chunks of the given sizes. -/
def chunks : List α → List ℕ → List (List α)
  | _, [] => []
  | l, s :: ss => l.take s :: chunks (l.drop s) ss

/-- Embedding of `np.array_split(l, k)`: `k` contiguous near-equal parts,
earlier parts receiving the extra elements.  `np.array_split` raises
`ValueError` when the section count is zero, modelled by `none`. -/
def arraySplit (l : List α) (k : ℕ) : Option (List (List α)) :=
  if k = 0 then none
  else some (chunks l (splitSizes (l.length / k) k (l.length % k)))

/-- First maximum of a list together with its index: embedding of
`np.argmax`, which returns the first index attaining the maximum. -/
def firstMax : List ℚ → Option (ℕ × ℚ)
  | [] => none
  | x :: xs =>
    match firstMax xs with
    | none => some (0, x)
    | some (j, m) => if x < m then some (j + 1, m) else some (0, x)

/-- First minimum of a list together with its index: embedding of
`np.argmin`. -/
def firstMin : List ℚ → Option (ℕ × ℚ)
  | [] => none
  | x :: xs =>
    match firstMin xs with
    | none => some (0, x)
    | some (j, m) => if m < x then some (j + 1, m) else some (0, x)

/-- Coordinate-wise mean of a list of points (`ndarray.mean(axis=0)`).
The mean of an empty array is not a finite point (numpy produces `nan`),
modelled as `none`. -/
def mean (l : List Point) : Option Point :=
  if l.length = 0 then none
  else some ((l.map Prod.fst).sum / l.length, (l.map Prod.snd).sum / l.length)

/-- Embedding of `_area_of_triangles` for a single candidate point `p`
in the bucket (the source broadcasts this computation over the bucket's
first axis): `0.5 * abs((pre_x - next_x) * (p_y - pre_y) - (pre_x - p_x)
* (next_y - pre_y))`. -/
def areaOfTriangle (pre next p : Point) : ℚ :=
  |(pre.1 - next.1) * (p.2 - pre.2) - (pre.1 - p.1) * (next.2 - pre.2)| / 2

/-- Modelled from the spec's words (section 4.4) for comparison with the
code's `areaOfTriangle`: the standard shoelace formula for the area of the
triangle with vertices `a`, `b`, `c`. -/
def specShoelaceArea (a b c : Point) : ℚ :=
  |a.1 * (b.2 - c.2) + b.1 * (c.2 - a.2) + c.1 * (a.2 - b.2)| / 2

/-- Body of the per-bucket selection (identical duplicated code in
`lttb.py` and `ltd.py`): keep the global max point if its row is in this
bucket, else the global min point, else the candidate of this bucket
maximizing the triangle area with the previous output point `out[i]` and
the centroid of the next bucket (the last data point for the final
buckets). -/
def selectChoose (maxP minP : Point) (nBins : ℕ) (lastP : Point)
    (binsAll : List (List Point)) (b : List Point) (i : ℕ)
    (out : List Point) : Option Point :=
  if maxP ∈ b then some maxP
  else if minP ∈ b then some minP
  else do
    let nextBin ← if i < nBins - 1 then binsAll[i+1]? else some [lastP]
    let pre ← out[i]?
    let nextPoint ← mean nextBin
    let areas := b.map (fun p => areaOfTriangle pre nextPoint p)
    let am ← firstMax areas
    b[am.1]?

/-- The output-filling loop shared by `lttb` and `ltd` (the two files
duplicate it verbatim): for each bucket `i` in order, write the selected
point into `out[i+1]`.  A write past the end of `out` is an `IndexError`
in the source, modelled as `none`. -/
def selectLoop (maxP minP : Point) (nBins : ℕ) (lastP : Point)
    (binsAll : List (List Point)) :
    List (List Point) → ℕ → List Point → Option (List Point)
  | [], _, out => some out
  | b :: rest, i, out =>
    if i + 1 < out.length then
      match selectChoose maxP minP nBins lastP binsAll b i out with
      | none => none
      | some p => selectLoop maxP minP nBins lastP binsAll rest (i + 1) (out.set (i + 1) p)
    else none

/-- The interior of the series: `data[1 : len(data) - 1]`. -/
def interior (data : List Point) : List Point :=
  (data.drop 1).dropLast

/-- Row of the series holding the first occurrence of the maximal y value:
`data[np.argmax(data, axis=0)[1]]`. -/
def maxPointOf (data : List Point) : Option Point := do
  let m ← firstMax (data.map Prod.snd)
  data[m.1]?

/-- Row of the series holding the first occurrence of the minimal y value:
`data[np.argmin(data, axis=0)[1]]`. -/
def minPointOf (data : List Point) : Option Point := do
  let m ← firstMin (data.map Prod.snd)
  data[m.1]?

/-- Output assembly common to `lttb` and `ltd` once the bucket list is
fixed: prepare the zero array, pin the first and last rows, locate the
global extremum rows, and run the selection loop. -/
def runCore (data : List Point) (nOut : ℕ) (bins : List (List Point)) :
    Option (List Point) := do
  let first ← data[0]?
  let last ← data.getLast?
  let out0 := ((List.replicate nOut ((0 : ℚ), (0 : ℚ))).set 0 first).set (nOut - 1) last
  let maxP ← maxPointOf data
  let minP ← minPointOf data
  selectLoop maxP minP (nOut - 2) last bins bins 0 out0

/-- The `x` column of the series. -/
def xCol (data : List Point) : List ℚ :=
  data.map Prod.fst

/-- Embedding of the check `any(data[:, 0] != np.sort(data[:, 0]))`: the
`x` column differs from its ascending sort.  Any comparison sort agrees
with `np.sort` element-wise on a linearly ordered column, so the model
uses `List.insertionSort`. -/
def sortCheckFails (data : List Point) : Prop :=
  xCol data ≠ List.insertionSort (· ≤ ·) (xCol data)

instance (data : List Point) : Decidable (sortCheckFails data) := by
  unfold sortCheckFails; infer_instance

/-- Validation sequence and dispatch shared by `lttb` and `ltd` (the two
files duplicate the validation code verbatim); `split` produces the bucket
list and is the only difference between the two entry points.  The
2-column shape check precedes these checks in the source and is satisfied
by the `List Point` representation. -/
def runAlgo (split : List Point → ℕ → Option (List (List Point)))
    (data : List Point) (nOut : ℕ) : RunResult :=
  if sortCheckFails data then .err .NotSorted
  else if data.length < nOut then .err .OutOfRange
  else if nOut = data.length then .ok data
  else if nOut < 3 then .err .TooFew
  else
    match split data nOut with
    | none => .crash
    | some bins =>
      match runCore data nOut bins with
      | none => .crash
      | some out => .ok out

/-- Embedding of `lttb(data, n_out)`: static equal bucketing. -/
def lttb (data : List Point) (nOut : ℕ) : RunResult :=
  runAlgo (fun d n => arraySplit (interior d) (n - 2)) data nOut

/-- Squared standard error of the slope of the least-squares line through
the points, exactly as `scipy.stats.linregress(points).stderr` computes it:
`stderr = sqrt((1 - r**2) * ssym / ssxm / (n - 2))` with `r = 0` when
`ssxm` or `ssym` vanishes and `r = ssxym / sqrt(ssxm * ssym)` otherwise
(the clipping of `r` to `[-1, 1]` is inactive in exact arithmetic by
Cauchy-Schwarz).  With fewer than 3 points the divisor `n - 2` vanishes
and with `ssxm = 0` the fit is degenerate; in both cases the source
produces a non-finite value (`inf`/`nan`), modelled as `none`.  The model
carries the square of the standard error because the square is a rational
function of the data; `stderr` itself is its nonnegative square root, so
every order comparison of `stderr` values is performed on the squares
(see `argsortQ` and `sqrtSumLt`). -/
def stderrSq (ps : List Point) : Option ℚ :=
  let n : ℚ := ps.length
  let xs := ps.map Prod.fst
  let ys := ps.map Prod.snd
  let xm := xs.sum / n
  let ym := ys.sum / n
  let ssxm := (xs.map (fun x => (x - xm) ^ 2)).sum
  let ssym := (ys.map (fun y => (y - ym) ^ 2)).sum
  let ssxym := (ps.map (fun p => (p.1 - xm) * (p.2 - ym))).sum
  if ps.length ≤ 2 then none
  else if ssxm = 0 then none
  else if ssym = 0 then some 0
  else some ((ssym - ssxym ^ 2 / ssxm) / (ssxm * (n - 2)))

/-- Decides `sqrt a + sqrt b < sqrt c + sqrt d` for nonnegative rationals
by repeated squaring.  `_find_min_bin` compares sums of two standard
errors; since scores are carried as squared standard errors, this is the
exact comparison of the corresponding square-root sums. -/
def sqrtSumLt (a b c d : ℚ) : Bool :=
  let t := (c + d) - (a + b)
  let m := a * b
  let n := c * d
  let e := 4 * m - 4 * n - t ^ 2
  if t ≤ 0 ∧ 4 * n ≤ t ^ 2 then false
  else if 0 ≤ t then (if e < 0 then true else decide (e ^ 2 < 16 * t ^ 2 * n))
  else (if 0 ≤ e then false else decide (e ^ 2 > 16 * t ^ 2 * n))

/-- Ascending argsort of a score list: embedding of
`np.argsort(sse_list)`.  Comparing squared standard errors is equivalent
to comparing the (nonnegative) standard errors themselves.  `np.argsort`
leaves the order of equal scores unspecified; the model fixes the stable
order, and the theorems stated about it only draw conclusions at the
level of score values, which do not depend on how ties are ordered. -/
def argsortQ (s : List ℚ) : List ℕ :=
  List.insertionSort
    (fun i j => s.getD i 0 < s.getD j 0 ∨ (s.getD i 0 = s.getD j 0 ∧ i ≤ j))
    (List.range s.length)

/-- The descending scan of `_find_max_bin`: walk the argsort order from
the highest score down, returning the first index whose bucket has at
least 2 points; when no bucket qualifies the loop falls through and the
source returns `sort_sse[i]` with `i = -len(sort_sse)`, i.e. the last
index visited — the index of the lowest score. -/
def findMaxLoop (bins : List (List Point)) : List ℕ → Option ℕ
  | [] => none
  | [j] => some j
  | j :: rest =>
    if 2 ≤ (bins.getD j []).length then some j else findMaxLoop bins rest

/-- Embedding of `_find_max_bin(data_bins, sse_list)`. -/
def findMaxBin (bins : List (List Point)) (scores : List ℚ) : Option ℕ :=
  findMaxLoop bins (argsortQ scores).reverse

/-- First minimum of a list of score pairs under the square-root-sum
order, together with its index.  `min` followed by `.index` in the source
returns the first position attaining the minimum. -/
def firstMinPair : List (ℚ × ℚ) → Option (ℕ × (ℚ × ℚ))
  | [] => none
  | p :: ps =>
    match firstMinPair ps with
    | none => some (0, p)
    | some (j, q) => if sqrtSumLt q.1 q.2 p.1 p.2 then some (j + 1, q) else some (0, p)

/-- Embedding of `_find_min_bin(sse_list)`: index of the adjacent pair of
buckets whose standard errors sum to the minimum (`min` of an empty pair
list raises `ValueError`, modelled as `none`). -/
def findMinBin (scores : List ℚ) : Option ℕ :=
  (firstMinPair (scores.zip scores.tail)).map Prod.fst

/-- The augmented point set whose linear fit scores bucket `i`: the
previous boundary point, the bucket, then the next boundary point,
exactly as `_split_data` builds `this_bin` (the `i == 0` test precedes
the `i == len - 1` test, so a single-bucket list hits `data_bins[i+1]`
and raises `IndexError`, modelled as `none`). -/
def augmentedBin (data : List Point) (bins : List (List Point)) (i : ℕ) :
    Option (List Point) :=
  if i = 0 then do
    let pre ← data[0]?
    let nextBin ← bins[i+1]?
    let next ← nextBin[0]?
    let b ← bins[i]?
    some ([pre] ++ b ++ [next])
  else if i = bins.length - 1 then do
    let preBin ← bins[i-1]?
    let pre ← preBin.getLast?
    let next ← data.getLast?
    let b ← bins[i]?
    some ([pre] ++ b ++ [next])
  else do
    let preBin ← bins[i-1]?
    let pre ← preBin.getLast?
    let nextBin ← bins[i+1]?
    let next ← nextBin[0]?
    let b ← bins[i]?
    some ([pre] ++ b ++ [next])

/-- Sequence a list of optional values in order, failing if any fails. -/
def optTraverse (f : ℕ → Option β) : List ℕ → Option (List β)
  | [] => some []
  | i :: t => do
    let b ← f i
    let r ← optTraverse f t
    some (b :: r)

/-- The score list of one refinement iteration: squared fit standard
error of every bucket's augmented point set, in bucket order. -/
def computeScores (data : List Point) (bins : List (List Point)) :
    Option (List ℚ) :=
  optTraverse (fun i => augmentedBin data bins i >>= stderrSq)
    (List.range bins.length)

/-- The rebuild loop of `_resize_bins`: walk the bucket indices in order;
at the split target append the two `np.array_split` halves, at the merge
target append the concatenation with the following bucket, skip the
bucket after the merge target, and copy every other bucket.  The `if`
chain tests the split target first, so a coinciding split and merge
target is split (its merge partner is still skipped), and a split target
equal to `min_index + 1` is split after its contents were already merged
into the previous output bucket. -/
def resizeGo (binsAll : List (List Point)) (maxI minI : ℕ) :
    ℕ → List (List Point) → Option (List (List Point))
  | _, [] => some []
  | i, b :: rest => do
    let tail ← resizeGo binsAll maxI minI (i + 1) rest
    if i = maxI then do
      let halves ← arraySplit b 2
      some (halves ++ tail)
    else if i = minI then do
      let nb ← binsAll[i+1]?
      some ((b ++ nb) :: tail)
    else if i = minI + 1 then some tail
    else some (b :: tail)

/-- Embedding of `_resize_bins(data_bins, sse_list)`. -/
def resizeBins (bins : List (List Point)) (scores : List ℚ) :
    Option (List (List Point)) := do
  let maxI ← findMaxBin bins scores
  let minI ← findMinBin scores
  resizeGo bins maxI minI 0 bins

/-- The refinement loop of `_split_data`: run the requested number of
score-and-resize passes. -/
def refineIter (data : List Point) : ℕ → List (List Point) → Option (List (List Point))
  | 0, bins => some bins
  | k + 1, bins => do
    let scores ← computeScores data bins
    let bins' ← resizeBins bins scores
    refineIter data k bins'

/-- Embedding of `_split_data(data, n_out)`: static equal split of the
interior followed by `int(len(data) / (n_out * 10))` refinement
iterations (`n_out = 0` divides by zero in the source). -/
def splitData (data : List Point) (nOut : ℕ) : Option (List (List Point)) :=
  if nOut = 0 then none
  else do
    let bins ← arraySplit (interior data) (nOut - 2)
    refineIter data (data.length / (nOut * 10)) bins

/-- Embedding of `ltd(data, n_out)`: dynamic bucketing. -/
def ltd (data : List Point) (nOut : ℕ) : RunResult :=
  runAlgo splitData data nOut

/-!
Concrete input series used to evaluate the code on specific inputs.
All coordinates are integers so that every list-structural computation is
kernel-reducible; the only division appears inside score and area
arithmetic, which is evaluated by `norm_num` stage lemmas.
-/

/-- A 40-point series for `ltd` with `n_out = 4`: a high-frequency zigzag
on x = 1..19, a near-straight steep ramp on x = 20..38 peaking at the
global maximum (38, 45), and a last point slightly below the ramp. -/
def dataA : List Point := [(0, 10), (1, 1), (2, 19), (3, 1), (4, 19), (5, 1), (6, 19), (7, 1), (8, 19), (9, 1), (10, 19), (11, 1), (12, 19), (13, 1), (14, 19), (15, 1), (16, 19), (17, 1), (18, 19), (19, 1), (20, 9), (21, 11), (22, 13), (23, 15), (24, 17), (25, 19), (26, 21), (27, 23), (28, 25), (29, 27), (30, 29), (31, 31), (32, 33), (33, 35), (34, 37), (35, 39), (36, 41), (37, 43), (38, 45), (39, 44)]

/-- First static bucket of `dataA` (interior rows 1..19). -/
def binA00 : List Point := [(1, 1), (2, 19), (3, 1), (4, 19), (5, 1), (6, 19), (7, 1), (8, 19), (9, 1), (10, 19), (11, 1), (12, 19), (13, 1), (14, 19), (15, 1), (16, 19), (17, 1), (18, 19), (19, 1)]

/-- Second static bucket of `dataA` (interior rows 20..38). -/
def binA01 : List Point := [(20, 9), (21, 11), (22, 13), (23, 15), (24, 17), (25, 19), (26, 21), (27, 23), (28, 25), (29, 27), (30, 29), (31, 31), (32, 33), (33, 35), (34, 37), (35, 39), (36, 41), (37, 43), (38, 45)]

/-- Augmented point set scoring bucket 0 of `dataA`. -/
def augA0 : List Point := [(0, 10), (1, 1), (2, 19), (3, 1), (4, 19), (5, 1), (6, 19), (7, 1), (8, 19), (9, 1), (10, 19), (11, 1), (12, 19), (13, 1), (14, 19), (15, 1), (16, 19), (17, 1), (18, 19), (19, 1), (20, 9)]

/-- Augmented point set scoring bucket 1 of `dataA`. -/
def augA1 : List Point := [(19, 1), (20, 9), (21, 11), (22, 13), (23, 15), (24, 17), (25, 19), (26, 21), (27, 23), (28, 25), (29, 27), (30, 29), (31, 31), (32, 33), (33, 35), (34, 37), (35, 39), (36, 41), (37, 43), (38, 45), (39, 44)]

/-- First half of the split bucket 0 of `dataA` after the refinement pass. -/
def binA10 : List Point := [(1, 1), (2, 19), (3, 1), (4, 19), (5, 1), (6, 19), (7, 1), (8, 19), (9, 1), (10, 19)]

/-- Second half of the split bucket 0 of `dataA` after the refinement pass. -/
def binA11 : List Point := [(11, 1), (12, 19), (13, 1), (14, 19), (15, 1), (16, 19), (17, 1), (18, 19), (19, 1)]

/-- A 40-point series for `ltd` with `n_out = 4`: a near-straight ramp on
x = 1..19 peaking at the global maximum (19, 21), then a high-frequency
zigzag on x = 20..38 containing the global minimum (21, 2). -/
def dataB : List Point := [(0, 3), (1, 3), (2, 4), (3, 5), (4, 6), (5, 7), (6, 8), (7, 9), (8, 10), (9, 11), (10, 12), (11, 13), (12, 14), (13, 15), (14, 16), (15, 17), (16, 18), (17, 19), (18, 20), (19, 21), (20, 18), (21, 2), (22, 18), (23, 2), (24, 18), (25, 2), (26, 18), (27, 2), (28, 18), (29, 2), (30, 18), (31, 2), (32, 18), (33, 2), (34, 18), (35, 2), (36, 18), (37, 2), (38, 18), (39, 10)]

/-- First static bucket of `dataB` (interior rows 1..19). -/
def binB00 : List Point := [(1, 3), (2, 4), (3, 5), (4, 6), (5, 7), (6, 8), (7, 9), (8, 10), (9, 11), (10, 12), (11, 13), (12, 14), (13, 15), (14, 16), (15, 17), (16, 18), (17, 19), (18, 20), (19, 21)]

/-- Second static bucket of `dataB` (interior rows 20..38). -/
def binB01 : List Point := [(20, 18), (21, 2), (22, 18), (23, 2), (24, 18), (25, 2), (26, 18), (27, 2), (28, 18), (29, 2), (30, 18), (31, 2), (32, 18), (33, 2), (34, 18), (35, 2), (36, 18), (37, 2), (38, 18)]

/-- Augmented point set scoring bucket 0 of `dataB`. -/
def augB0 : List Point := [(0, 3), (1, 3), (2, 4), (3, 5), (4, 6), (5, 7), (6, 8), (7, 9), (8, 10), (9, 11), (10, 12), (11, 13), (12, 14), (13, 15), (14, 16), (15, 17), (16, 18), (17, 19), (18, 20), (19, 21), (20, 18)]

/-- Augmented point set scoring bucket 1 of `dataB`. -/
def augB1 : List Point := [(19, 21), (20, 18), (21, 2), (22, 18), (23, 2), (24, 18), (25, 2), (26, 18), (27, 2), (28, 18), (29, 2), (30, 18), (31, 2), (32, 18), (33, 2), (34, 18), (35, 2), (36, 18), (37, 2), (38, 18), (39, 10)]

/-- The merged bucket of `dataB` after the refinement pass (buckets 0 and
1 concatenated: the whole interior). -/
def binBM : List Point := [(1, 3), (2, 4), (3, 5), (4, 6), (5, 7), (6, 8), (7, 9), (8, 10), (9, 11), (10, 12), (11, 13), (12, 14), (13, 15), (14, 16), (15, 17), (16, 18), (17, 19), (18, 20), (19, 21), (20, 18), (21, 2), (22, 18), (23, 2), (24, 18), (25, 2), (26, 18), (27, 2), (28, 18), (29, 2), (30, 18), (31, 2), (32, 18), (33, 2), (34, 18), (35, 2), (36, 18), (37, 2), (38, 18)]

/-- First half of the split bucket 1 of `dataB` after the refinement pass. -/
def binB1a : List Point := [(20, 18), (21, 2), (22, 18), (23, 2), (24, 18), (25, 2), (26, 18), (27, 2), (28, 18), (29, 2)]

/-- Second half of the split bucket 1 of `dataB` after the refinement pass. -/
def binB1b : List Point := [(30, 18), (31, 2), (32, 18), (33, 2), (34, 18), (35, 2), (36, 18), (37, 2), (38, 18)]

/-- A 30-point straight-line series `y = x`, long enough that `ltd` with
`n_out = 3` performs one refinement iteration. -/
def dataC1 : List Point := [(0, 0), (1, 1), (2, 2), (3, 3), (4, 4), (5, 5), (6, 6), (7, 7), (8, 8), (9, 9), (10, 10), (11, 11), (12, 12), (13, 13), (14, 14), (15, 15), (16, 16), (17, 17), (18, 18), (19, 19), (20, 20), (21, 21), (22, 22), (23, 23), (24, 24), (25, 25), (26, 26), (27, 27), (28, 28), (29, 29)]

/-- A 4-point series whose first two rows share the x value 0: its x
column is non-decreasing but not strictly increasing. -/
def dataDup : List Point := [(0, 0), (0, 1), (1, 2), (2, 3)]

/-- A 3-point sorted series used for identity and small-input witnesses. -/
def dataTiny : List Point := [(0, 0), (1, 1), (2, 2)]

/-- A sorted 2-point series, for calls with `n_out` equal to the length 2. -/
def dataPair : List Point := [(0, 0), (1, 1)]

/-!
Stage lemmas evaluating the code on the concrete inputs.  Steps without
rational arithmetic are checked by the kernel (`decide`); the score and
area computations are evaluated by `norm_num`; `simp only` composes the
stages.
-/

theorem mean_singleton (p : Point) : mean [p] = some p := by
  simp [mean]

theorem hsortA : ¬ sortCheckFails dataA := by decide

theorem hlenA : dataA.length = 40 := by decide

theorem hsplitA0 : arraySplit (interior dataA) 2 = some [binA00, binA01] := by decide

theorem haugA0 : augmentedBin dataA [binA00, binA01] 0 = some augA0 := by decide

theorem haugA1 : augmentedBin dataA [binA00, binA01] 1 = some augA1 := by decide

theorem hsA0 : stderrSq augA0 = some (35461/337953) := by norm_num [stderrSq, augA0]

theorem hsA1 : stderrSq augA1 = some (81/29645) := by norm_num [stderrSq, augA1]

theorem hscoresA : computeScores dataA [binA00, binA01] = some [35461/337953, 81/29645] := by
  simp only [computeScores, List.length_cons, List.length_nil, List.range_succ, List.range_zero,
    optTraverse, haugA0, haugA1, Option.bind_eq_bind, Option.some_bind,
    List.nil_append, List.singleton_append, hsA0, hsA1]

theorem hfmaxA : findMaxBin [binA00, binA01] [35461/337953, 81/29645] = some 0 := by
  norm_num [findMaxBin, argsortQ, findMaxLoop, List.insertionSort, List.orderedInsert,
    List.range_succ, binA00]

theorem hfminA : findMinBin [35461/337953, 81/29645] = some 0 := by
  simp [findMinBin, firstMinPair]

theorem hresizeA : resizeGo [binA00, binA01] 0 0 0 [binA00, binA01] = some [binA10, binA11] := by
  decide

theorem hresizeBinsA :
    resizeBins [binA00, binA01] [35461/337953, 81/29645] = some [binA10, binA11] := by
  simp only [resizeBins, hfmaxA, hfminA, Option.bind_eq_bind, Option.some_bind, hresizeA]

theorem hsplitA : splitData dataA 4 = some [binA10, binA11] := by
  norm_num only [splitData, hlenA, hsplitA0, Option.bind_eq_bind, Option.some_bind, refineIter,
    hscoresA, hresizeBinsA, if_false]

theorem h0A : dataA[0]? = some (0, 10) := by decide

theorem hlastA : dataA.getLast? = some (39, 44) := by decide

theorem hmaxA : maxPointOf dataA = some (38, 45) := by decide

theorem hminA : minPointOf dataA = some (1, 1) := by decide

theorem hout0A : ((List.replicate 4 ((0:ℚ), (0:ℚ))).set 0 (0, 10)).set 3 (39, 44)
    = [(0, 10), (0, 0), (0, 0), (39, 44)] := by decide

theorem sC0A : selectChoose (38, 45) (1, 1) 2 (39, 44) [binA10, binA11] binA10 0
    [(0, 10), (0, 0), (0, 0), (39, 44)] = some (1, 1) := by decide

theorem hm1A : ((38:ℚ), (45:ℚ)) ∉ binA11 := by decide

theorem hm2A : ((1:ℚ), (1:ℚ)) ∉ binA11 := by decide

theorem hpre1A : [((0:ℚ), (10:ℚ)), (1, 1), (0, 0), (39, 44)][1]? = some (1, 1) := by decide

theorem hmapA : binA11.map (fun p => areaOfTriangle (1, 1) (39, 44) p)
    = [215, 211/2, 258, 125/2, 301, 39/2, 344, 47/2, 387] := by
  norm_num [binA11, areaOfTriangle]

theorem hfmA : firstMax [(215 : ℚ), 211/2, 258, 125/2, 301, 39/2, 344, 47/2, 387]
    = some (8, 387) := by
  norm_num [firstMax]

theorem hget8A : binA11[(8:ℕ)]? = some (19, 1) := by decide

theorem sC1A : selectChoose (38, 45) (1, 1) 2 (39, 44) [binA10, binA11] binA11 1
    [(0, 10), (1, 1), (0, 0), (39, 44)] = some (19, 1) := by
  norm_num only [selectChoose, hm1A, hm2A, if_false, Option.bind_eq_bind, Option.some_bind,
    hpre1A, mean_singleton, hmapA, hfmA, hget8A]

theorem hset1A : [((0:ℚ), (10:ℚ)), (0, 0), (0, 0), (39, 44)].set 1 (1, 1)
    = [(0, 10), (1, 1), (0, 0), (39, 44)] := by decide

theorem hset2A : [((0:ℚ), (10:ℚ)), (1, 1), (0, 0), (39, 44)].set 2 (19, 1)
    = [(0, 10), (1, 1), (19, 1), (39, 44)] := by decide

theorem hloopA : selectLoop (38, 45) (1, 1) 2 (39, 44) [binA10, binA11] [binA10, binA11] 0
    [(0, 10), (0, 0), (0, 0), (39, 44)] = some [(0, 10), (1, 1), (19, 1), (39, 44)] := by
  norm_num only [selectLoop, sC0A, sC1A, hset1A, hset2A, List.length_cons, List.length_nil,
    if_true]

theorem hcoreA : runCore dataA 4 [binA10, binA11] = some [(0, 10), (1, 1), (19, 1), (39, 44)] := by
  norm_num only [runCore, h0A, hlastA, hmaxA, hminA, Option.bind_eq_bind, Option.some_bind,
    hout0A, hloopA]

theorem hltdA : ltd dataA 4 = .ok [(0, 10), (1, 1), (19, 1), (39, 44)] := by
  norm_num only [ltd, runAlgo, hsortA, hlenA, hsplitA, hcoreA, if_false, if_true]

theorem hsortB : ¬ sortCheckFails dataB := by decide

theorem hlenB : dataB.length = 40 := by decide

theorem hsplitB0 : arraySplit (interior dataB) 2 = some [binB00, binB01] := by decide

theorem haugB0 : augmentedBin dataB [binB00, binB01] 0 = some augB0 := by decide

theorem haugB1 : augmentedBin dataB [binB00, binB01] 1 = some augB1 := by decide

theorem hsB0 : stderrSq augB0 = some (27/29645) := by norm_num [stderrSq, augB0]

theorem hsB1 : stderrSq augB1 = some (13693/153615) := by norm_num [stderrSq, augB1]

theorem hscoresB : computeScores dataB [binB00, binB01] = some [27/29645, 13693/153615] := by
  simp only [computeScores, List.length_cons, List.length_nil, List.range_succ, List.range_zero,
    optTraverse, haugB0, haugB1, Option.bind_eq_bind, Option.some_bind,
    List.nil_append, List.singleton_append, hsB0, hsB1]

theorem hfmaxB : findMaxBin [binB00, binB01] [27/29645, 13693/153615] = some 1 := by
  norm_num [findMaxBin, argsortQ, findMaxLoop, List.insertionSort, List.orderedInsert,
    List.range_succ, binB01]

theorem hfminB : findMinBin [27/29645, 13693/153615] = some 0 := by
  simp [findMinBin, firstMinPair]

theorem hresizeB : resizeGo [binB00, binB01] 1 0 0 [binB00, binB01]
    = some [binBM, binB1a, binB1b] := by decide

theorem hresizeBinsB :
    resizeBins [binB00, binB01] [27/29645, 13693/153615] = some [binBM, binB1a, binB1b] := by
  simp only [resizeBins, hfmaxB, hfminB, Option.bind_eq_bind, Option.some_bind, hresizeB]

theorem hsplitB : splitData dataB 4 = some [binBM, binB1a, binB1b] := by
  norm_num only [splitData, hlenB, hsplitB0, Option.bind_eq_bind, Option.some_bind, refineIter,
    hscoresB, hresizeBinsB, if_false]

theorem h0B : dataB[0]? = some (0, 3) := by decide

theorem hlastB : dataB.getLast? = some (39, 10) := by decide

theorem hmaxB : maxPointOf dataB = some (19, 21) := by decide

theorem hminB : minPointOf dataB = some (21, 2) := by decide

theorem hout0B : ((List.replicate 4 ((0:ℚ), (0:ℚ))).set 0 (0, 3)).set 3 (39, 10)
    = [(0, 3), (0, 0), (0, 0), (39, 10)] := by decide

theorem sC0B : selectChoose (19, 21) (21, 2) 2 (39, 10) [binBM, binB1a, binB1b] binBM 0
    [(0, 3), (0, 0), (0, 0), (39, 10)] = some (19, 21) := by decide

theorem hset1B : [((0:ℚ), (3:ℚ)), (0, 0), (0, 0), (39, 10)].set 1 (19, 21)
    = [(0, 3), (19, 21), (0, 0), (39, 10)] := by decide

theorem sC1B : selectChoose (19, 21) (21, 2) 2 (39, 10) [binBM, binB1a, binB1b] binB1a 1
    [(0, 3), (19, 21), (0, 0), (39, 10)] = some (21, 2) := by decide

theorem hset2B : [((0:ℚ), (3:ℚ)), (19, 21), (0, 0), (39, 10)].set 2 (21, 2)
    = [(0, 3), (19, 21), (21, 2), (39, 10)] := by decide

theorem hm1B : ((19:ℚ), (21:ℚ)) ∉ binB1b := by decide

theorem hm2B : ((21:ℚ), (2:ℚ)) ∉ binB1b := by decide

theorem hpre2B : [((0:ℚ), (3:ℚ)), (19, 21), (21, 2), (39, 10)][2]? = some (21, 2) := by decide

theorem hmapB : binB1b.map (fun p => areaOfTriangle (21, 2) (39, 10) p)
    = [108, 40, 100, 48, 92, 56, 84, 64, 76] := by
  norm_num [binB1b, areaOfTriangle]

theorem hfmB : firstMax [(108 : ℚ), 40, 100, 48, 92, 56, 84, 64, 76] = some (0, 108) := by
  norm_num [firstMax]

theorem hget0B : binB1b[(0:ℕ)]? = some (30, 18) := by decide

theorem sC2B : selectChoose (19, 21) (21, 2) 2 (39, 10) [binBM, binB1a, binB1b] binB1b 2
    [(0, 3), (19, 21), (21, 2), (39, 10)] = some (30, 18) := by
  norm_num only [selectChoose, hm1B, hm2B, if_false, Option.bind_eq_bind, Option.some_bind,
    hpre2B, mean_singleton, hmapB, hfmB, hget0B]

theorem hset3B : [((0:ℚ), (3:ℚ)), (19, 21), (21, 2), (39, 10)].set 3 (30, 18)
    = [(0, 3), (19, 21), (21, 2), (30, 18)] := by decide

theorem hloopB : selectLoop (19, 21) (21, 2) 2 (39, 10) [binBM, binB1a, binB1b]
    [binBM, binB1a, binB1b] 0 [(0, 3), (0, 0), (0, 0), (39, 10)]
    = some [(0, 3), (19, 21), (21, 2), (30, 18)] := by
  norm_num only [selectLoop, sC0B, sC1B, sC2B, hset1B, hset2B, hset3B,
    List.length_cons, List.length_nil, if_true]

theorem hcoreB : runCore dataB 4 [binBM, binB1a, binB1b]
    = some [(0, 3), (19, 21), (21, 2), (30, 18)] := by
  norm_num only [runCore, h0B, hlastB, hmaxB, hminB, Option.bind_eq_bind, Option.some_bind,
    hout0B, hloopB]

theorem hltdB : ltd dataB 4 = .ok [(0, 3), (19, 21), (21, 2), (30, 18)] := by
  norm_num only [ltd, runAlgo, hsortB, hlenB, hsplitB, hcoreB, if_false, if_true]

theorem hsplitC1 : splitData dataC1 3 = none := by decide

theorem hltdC1 : ltd dataC1 3 = .crash := by decide

theorem hsplitDup : arraySplit (interior dataDup) 1 = some [[(0, 1), (1, 2)]] := by decide

theorem hsplitDataDup : splitData dataDup 3 = some [[(0, 1), (1, 2)]] := by decide

theorem hmDup1 : ((2:ℚ), (3:ℚ)) ∉ [((0:ℚ), (1:ℚ)), (1, 2)] := by decide

theorem hmDup2 : ((0:ℚ), (0:ℚ)) ∉ [((0:ℚ), (1:ℚ)), (1, 2)] := by decide

theorem hmapDup : [((0:ℚ), (1:ℚ)), (1, 2)].map (fun p => areaOfTriangle (0, 0) (2, 3) p)
    = [1, 1/2] := by
  norm_num [areaOfTriangle]

theorem hfmDup : firstMax [(1 : ℚ), 1/2] = some (0, 1) := by
  norm_num [firstMax]

theorem hpre0Dup : [((0:ℚ), (0:ℚ)), (0, 0), (2, 3)][0]? = some (0, 0) := by decide

theorem hget0Dup : [((0:ℚ), (1:ℚ)), (1, 2)][(0:ℕ)]? = some (0, 1) := by decide

theorem sC0Dup : selectChoose (2, 3) (0, 0) 1 (2, 3) [[(0, 1), (1, 2)]] [(0, 1), (1, 2)] 0
    [(0, 0), (0, 0), (2, 3)] = some (0, 1) := by
  norm_num only [selectChoose, hmDup1, hmDup2, if_false, Option.bind_eq_bind, Option.some_bind,
    hpre0Dup, mean_singleton, hmapDup, hfmDup, hget0Dup]

theorem hsetDup : [((0:ℚ), (0:ℚ)), (0, 0), (2, 3)].set 1 (0, 1)
    = [(0, 0), (0, 1), (2, 3)] := by decide

theorem hloopDup : selectLoop (2, 3) (0, 0) 1 (2, 3) [[(0, 1), (1, 2)]] [[(0, 1), (1, 2)]] 0
    [(0, 0), (0, 0), (2, 3)] = some [(0, 0), (0, 1), (2, 3)] := by
  norm_num only [selectLoop, sC0Dup, hsetDup, List.length_cons, List.length_nil, if_true]

theorem h0Dup : dataDup[0]? = some (0, 0) := by decide

theorem hlastDup : dataDup.getLast? = some (2, 3) := by decide

theorem hmaxDup : maxPointOf dataDup = some (2, 3) := by decide

theorem hminDup : minPointOf dataDup = some (0, 0) := by decide

theorem hout0Dup : ((List.replicate 3 ((0:ℚ), (0:ℚ))).set 0 (0, 0)).set 2 (2, 3)
    = [(0, 0), (0, 0), (2, 3)] := by decide

theorem hcoreDup : runCore dataDup 3 [[(0, 1), (1, 2)]] = some [(0, 0), (0, 1), (2, 3)] := by
  norm_num only [runCore, h0Dup, hlastDup, hmaxDup, hminDup, Option.bind_eq_bind,
    Option.some_bind, hout0Dup, hloopDup]

theorem hsortDup : ¬ sortCheckFails dataDup := by decide

theorem hlenDup : dataDup.length = 4 := by decide

theorem hlttbDup : lttb dataDup 3 = .ok [(0, 0), (0, 1), (2, 3)] := by
  norm_num only [lttb, runAlgo, hsortDup, hlenDup, hsplitDup, hcoreDup, if_false, if_true]

theorem hltdDup : ltd dataDup 3 = .ok [(0, 0), (0, 1), (2, 3)] := by
  norm_num only [ltd, runAlgo, hsortDup, hlenDup, hsplitDataDup, hcoreDup, if_false, if_true]

/-- C1: on the valid input `dataC1` (30 strictly increasing points,
`n_out = 3`), the first refinement iteration of the dynamic variant does
not terminate with `n_out - 2 = 1` bucket covering the interior: the
score loop of `_split_data` reads `data_bins[i+1]` for the single bucket
`i = 0` and raises `IndexError`, so `ltd` crashes and produces no bucket
list at all. -/
theorem c1_refinement_crashes :
    splitData dataC1 3 = none ∧ ltd dataC1 3 = RunResult.crash :=
  ⟨hsplitC1, hltdC1⟩

/-- C2: on the valid input `dataA` (40 points, `n_out = 4`), `ltd`
returns an output, the first global-maximum row is (38, 45), the first
global-minimum row is (1, 1), the two extrema lie in different static
buckets, the minimum row survives into the output — yet the maximum row
is absent, because the refinement pass chose bucket 0 simultaneously as
split target and merge target and thereby discarded bucket 1, which held
the maximum. -/
theorem c2_max_point_lost :
    ltd dataA 4 = RunResult.ok [(0, 10), (1, 1), (19, 1), (39, 44)] ∧
    maxPointOf dataA = some (38, 45) ∧
    minPointOf dataA = some (1, 1) ∧
    ((38 : ℚ), (45 : ℚ)) ∈ binA01 ∧ ((1 : ℚ), (1 : ℚ)) ∈ binA00 ∧
    ((1 : ℚ), (1 : ℚ)) ∈ [((0 : ℚ), (10 : ℚ)), (1, 1), (19, 1), (39, 44)] ∧
    ((38 : ℚ), (45 : ℚ)) ∉ [((0 : ℚ), (10 : ℚ)), (1, 1), (19, 1), (39, 44)] :=
  ⟨hltdA, hmaxA, hminA, by decide, by decide, by decide, by decide⟩

/-- C6: on the valid input `dataB` (40 points, `n_out = 4`), `ltd`
returns an output of the right length 4 whose row 0 is the first input
point, but whose last row is (30, 18) instead of the last input point
(39, 10): the refinement pass produced `n_out - 1 = 3` buckets (split
target = merge target + 1), so the selection loop's final write
overwrites the pinned last row. -/
theorem c6_last_row_overwritten :
    ltd dataB 4 = RunResult.ok [(0, 3), (19, 21), (21, 2), (30, 18)] ∧
    dataB.getLast? = some (39, 10) ∧
    [((0 : ℚ), (3 : ℚ)), (19, 21), (21, 2), (30, 18)].getLast? = some (30, 18) ∧
    ((30 : ℚ), (18 : ℚ)) ≠ ((39 : ℚ), (10 : ℚ)) ∧
    splitData dataB 4 = some [binBM, binB1a, binB1b] :=
  ⟨hltdB, hlastB, by decide, by decide, hsplitB⟩

/-- C3 counterexample: on the sorted 2-column, 2-point series `dataPair`
with `n_out = 2` (so `n_out ≤ N` and `n_out < 3`), both variants return
the series unchanged instead of failing with `TooFew`: the `n_out == N`
identity short-circuit precedes the `n_out < 3` check. -/
theorem c3_counterexample :
    lttb dataPair 2 = RunResult.ok dataPair ∧ ltd dataPair 2 = RunResult.ok dataPair := by
  constructor <;> decide

/-- C8 counterexample: the 2-column series `dataDup` has two equal
consecutive x values (rows 0 and 1 both have x = 0), yet neither variant
rejects it with `NotSorted`: both run to completion and return an
output. -/
theorem c8_counterexample :
    dataDup[0]?.map Prod.fst = dataDup[1]?.map Prod.fst ∧
    lttb dataDup 3 = RunResult.ok [(0, 0), (0, 1), (2, 3)] ∧
    ltd dataDup 3 = RunResult.ok [(0, 0), (0, 1), (2, 3)] :=
  ⟨by decide, hlttbDup, hltdDup⟩

theorem sortFails_iff (d : List Point) :
    sortCheckFails d ↔ ¬ (xCol d).Sorted (· ≤ ·) := by
  unfold sortCheckFails
  constructor
  · intro hne hs
    exact hne hs.insertionSort_eq.symm
  · intro hns heq
    exact hns (heq ▸ List.sorted_insertionSort (· ≤ ·) (xCol d))

theorem not_sortFails (d : List Point) (hs : (xCol d).Sorted (· ≤ ·)) :
    ¬ sortCheckFails d :=
  fun hf => (sortFails_iff d).mp hf hs

/-- C3 (amended): a 2-column series with non-decreasing x and
`n_out < 3` fails with `TooFew` in both variants provided `n_out` is
strictly below the series length (with `n_out` equal to the length the
identity short-circuit fires first). -/
theorem c3_toofew (d : List Point) (n : ℕ) (hs : (xCol d).Sorted (· ≤ ·))
    (h3 : n < 3) (hn : n < d.length) :
    lttb d n = RunResult.err ErrorKind.TooFew ∧ ltd d n = RunResult.err ErrorKind.TooFew := by
  have hsf := not_sortFails d hs
  constructor <;>
    simp only [lttb, ltd, runAlgo, if_neg hsf, if_neg (by omega : ¬ d.length < n),
      if_neg (by omega : ¬ n = d.length), if_pos h3]

theorem c3_toofew_witness :
    2 < 3 ∧ 2 < dataTiny.length ∧
    (lttb dataTiny 2 = RunResult.err ErrorKind.TooFew ∧
      ltd dataTiny 2 = RunResult.err ErrorKind.TooFew) :=
  ⟨by decide, by decide, c3_toofew dataTiny 2 (by decide) (by decide) (by decide)⟩

/-- C9: calling either variant with `n_out` equal to the series length
on a series with non-decreasing x returns the series unchanged. -/
theorem c9_identity (d : List Point) (n : ℕ) (hs : (xCol d).Sorted (· ≤ ·))
    (he : n = d.length) :
    lttb d n = RunResult.ok d ∧ ltd d n = RunResult.ok d := by
  have hsf := not_sortFails d hs
  constructor <;>
    simp only [lttb, ltd, runAlgo, if_neg hsf, if_neg (by omega : ¬ d.length < n), if_pos he]

theorem c9_identity_witness :
    lttb dataTiny 3 = RunResult.ok dataTiny ∧ ltd dataTiny 3 = RunResult.ok dataTiny :=
  c9_identity dataTiny 3 (by decide) (by decide)

/-- C8 (amended): validation enforces only that the x column is
non-decreasing; any series whose x column is non-decreasing — equal
consecutive x values included — is never rejected with `NotSorted`, by
either variant. -/
theorem c8_nondecreasing_accepted (d : List Point) (n : ℕ)
    (hs : (xCol d).Sorted (· ≤ ·)) :
    lttb d n ≠ RunResult.err ErrorKind.NotSorted ∧
    ltd d n ≠ RunResult.err ErrorKind.NotSorted := by
  have hsf := not_sortFails d hs
  constructor <;>
  · simp only [lttb, ltd, runAlgo, if_neg hsf]
    split_ifs <;> try simp
    split <;> try simp
    split <;> simp

theorem c8_nondecreasing_accepted_witness :
    lttb dataDup 3 ≠ RunResult.err ErrorKind.NotSorted ∧
    ltd dataDup 3 ≠ RunResult.err ErrorKind.NotSorted :=
  c8_nondecreasing_accepted dataDup 3 (by decide)

/-- C5: when the series is shorter than `n_out * 10`, the dynamic
variant performs zero refinement iterations: its bucket list is exactly
the static equal partition, and the whole call coincides with the static
variant. -/
theorem c5_no_refinement (d : List Point) (n : ℕ) (h : d.length < n * 10) :
    ltd d n = lttb d n ∧ splitData d n = arraySplit (interior d) (n - 2) := by
  have hn0 : n ≠ 0 := by
    rintro rfl
    omega
  have hsplit : splitData d n = arraySplit (interior d) (n - 2) := by
    simp only [splitData, if_neg hn0, Nat.div_eq_of_lt h]
    cases arraySplit (interior d) (n - 2) with
    | none => rfl
    | some bins => simp [refineIter]
  refine ⟨?_, hsplit⟩
  simp only [ltd, lttb, runAlgo, hsplit]

theorem c5_no_refinement_witness :
    ltd dataTiny 3 = lttb dataTiny 3 ∧
    splitData dataTiny 3 = arraySplit (interior dataTiny) (3 - 2) :=
  c5_no_refinement dataTiny 3 (by decide)

/-- C4 counterexample: with two single-point buckets of scores 1 and 2,
no bucket has at least 2 points, and `_find_max_bin` returns bucket 0 —
the globally lowest-scoring bucket, not the highest-scoring bucket 1. -/
theorem c4_counterexample :
    findMaxBin [[(0, 0)], [(1, 1)]] [1, 2] = some 0 ∧ (1 : ℚ) < 2 := by
  constructor <;> decide

theorem argsortQ_perm (s : List ℚ) : List.Perm (argsortQ s) (List.range s.length) :=
  List.perm_insertionSort _ _

theorem argsortQ_mem (s : List ℚ) (j : ℕ) : j ∈ argsortQ s ↔ j < s.length := by
  rw [(argsortQ_perm s).mem_iff, List.mem_range]

theorem argsortQ_rev_pairwise (s : List ℚ) :
    ((argsortQ s).reverse).Pairwise (fun a b => s.getD b 0 ≤ s.getD a 0) := by
  haveI ht : IsTotal ℕ
      (fun i j => s.getD i 0 < s.getD j 0 ∨ (s.getD i 0 = s.getD j 0 ∧ i ≤ j)) := by
    constructor
    intro a b
    rcases lt_trichotomy (s.getD a 0) (s.getD b 0) with h | h | h
    · exact Or.inl (Or.inl h)
    · rcases Nat.le_total a b with hab | hab
      · exact Or.inl (Or.inr ⟨h, hab⟩)
      · exact Or.inr (Or.inr ⟨h.symm, hab⟩)
    · exact Or.inr (Or.inl h)
  haveI htr : IsTrans ℕ
      (fun i j => s.getD i 0 < s.getD j 0 ∨ (s.getD i 0 = s.getD j 0 ∧ i ≤ j)) := by
    constructor
    rintro a b c (hab | ⟨hab, hab'⟩) (hbc | ⟨hbc, hbc'⟩)
    · exact Or.inl (hab.trans hbc)
    · exact Or.inl (hbc ▸ hab)
    · exact Or.inl (hab ▸ hbc)
    · exact Or.inr ⟨hab.trans hbc, hab'.trans hbc'⟩
  have h := List.sorted_insertionSort
    (fun i j => s.getD i 0 < s.getD j 0 ∨ (s.getD i 0 = s.getD j 0 ∧ i ≤ j))
    (List.range s.length)
  have h' : (argsortQ s).Pairwise
      (fun i j => s.getD i 0 < s.getD j 0 ∨ (s.getD i 0 = s.getD j 0 ∧ i ≤ j)) := h
  rw [List.pairwise_reverse]
  refine h'.imp ?_
  rintro a b (hab | ⟨hab, _⟩)
  · exact hab.le
  · exact hab.le

theorem findMaxLoop_spec (bins : List (List Point)) (s : List ℚ) :
    ∀ l : List ℕ,
      l.Pairwise (fun a b => s.getD b 0 ≤ s.getD a 0) → l ≠ [] →
      ∃ j, findMaxLoop bins l = some j ∧ j ∈ l ∧
        ((∃ i ∈ l, 2 ≤ (bins.getD i []).length) →
          2 ≤ (bins.getD j []).length ∧
          ∀ k ∈ l, 2 ≤ (bins.getD k []).length → s.getD k 0 ≤ s.getD j 0) ∧
        ((∀ i ∈ l, (bins.getD i []).length < 2) → ∀ k ∈ l, s.getD j 0 ≤ s.getD k 0)
  | [], _, hne => absurd rfl hne
  | [j], _, _ => by
    refine ⟨j, rfl, List.mem_singleton_self j, ?_, ?_⟩
    · rintro ⟨i, hi, helig⟩
      rw [List.mem_singleton] at hi
      subst hi
      exact ⟨helig, fun k hk _ => by rw [List.mem_singleton] at hk; rw [hk]⟩
    · intro _ k hk
      rw [List.mem_singleton] at hk
      rw [hk]
  | j :: j' :: rest, hpw, _ => by
    have hpwtail : (j' :: rest).Pairwise (fun a b => s.getD b 0 ≤ s.getD a 0) :=
      (List.pairwise_cons.mp hpw).2
    have hhead : ∀ k ∈ j' :: rest, s.getD k 0 ≤ s.getD j 0 :=
      (List.pairwise_cons.mp hpw).1
    by_cases helig : 2 ≤ (bins.getD j []).length
    · refine ⟨j, ?_, List.mem_cons_self .., ?_, ?_⟩
      · show (if 2 ≤ (bins.getD j []).length then some j else findMaxLoop bins (j' :: rest))
          = some j
        rw [if_pos helig]
      · intro _
        refine ⟨helig, fun k hk _ => ?_⟩
        rcases List.mem_cons.mp hk with hk | hk
        · rw [hk]
        · exact hhead k hk
      · intro hall
        exact absurd helig (by simpa using hall j (List.mem_cons_self ..))
    · obtain ⟨j₀, hrun, hmem, hfst, hsnd⟩ :=
        findMaxLoop_spec bins s (j' :: rest) hpwtail (List.cons_ne_nil _ _)
      refine ⟨j₀, ?_, List.mem_cons_of_mem _ hmem, ?_, ?_⟩
      · show (if 2 ≤ (bins.getD j []).length then some j else findMaxLoop bins (j' :: rest))
          = some j₀
        rw [if_neg helig]
        exact hrun
      · rintro ⟨i, hi, hielig⟩
        have hi' : i ∈ j' :: rest := by
          rcases List.mem_cons.mp hi with hi | hi
          · exact absurd (hi ▸ hielig) helig
          · exact hi
        obtain ⟨h1, h2⟩ := hfst ⟨i, hi', hielig⟩
        refine ⟨h1, fun k hk hkelig => ?_⟩
        rcases List.mem_cons.mp hk with hk | hk
        · exact absurd (hk ▸ hkelig) helig
        · exact h2 k hk hkelig
      · intro hall
        have h2 := hsnd (fun i hi => hall i (List.mem_cons_of_mem _ hi))
        intro k hk
        rcases List.mem_cons.mp hk with hk | hk
        · exact hk ▸ (h2 j₀ hmem).trans (hhead j₀ hmem)
        · exact h2 k hk

/-- C4 (amended): the split target is the bucket with the highest
fit-error score among buckets containing at least 2 points; when no
bucket has at least 2 points, the choice resolves to the globally
lowest-scoring bucket (the index the argsort places first). -/
theorem c4_split_target (bins : List (List Point)) (scores : List ℚ)
    (hlen : bins.length = scores.length) (hne : scores ≠ []) :
    ∃ j, findMaxBin bins scores = some j ∧ j < scores.length ∧
      ((∃ i, i < bins.length ∧ 2 ≤ (bins.getD i []).length) →
        2 ≤ (bins.getD j []).length ∧
        ∀ k, k < scores.length → 2 ≤ (bins.getD k []).length →
          scores.getD k 0 ≤ scores.getD j 0) ∧
      ((∀ i, i < bins.length → (bins.getD i []).length < 2) →
        ∀ k, k < scores.length → scores.getD j 0 ≤ scores.getD k 0) := by
  have hmemrev : ∀ j : ℕ, j ∈ (argsortQ scores).reverse ↔ j < scores.length := by
    intro j
    rw [List.mem_reverse]
    exact argsortQ_mem scores j
  have hrevne : (argsortQ scores).reverse ≠ [] := by
    intro hrev
    have h0 : (0 : ℕ) < scores.length := List.length_pos.mpr hne
    have := (hmemrev 0).mpr h0
    rw [hrev] at this
    exact List.not_mem_nil _ this
  obtain ⟨j, hrun, hmem, hfst, hsnd⟩ :=
    findMaxLoop_spec bins scores (argsortQ scores).reverse (argsortQ_rev_pairwise scores) hrevne
  refine ⟨j, hrun, (hmemrev j).mp hmem, ?_, ?_⟩
  · rintro ⟨i, hi, hielig⟩
    obtain ⟨h1, h2⟩ := hfst ⟨i, (hmemrev i).mpr (hlen ▸ hi), hielig⟩
    exact ⟨h1, fun k hk hkelig => h2 k ((hmemrev k).mpr hk) hkelig⟩
  · intro hall k hk
    exact hsnd (fun i hi => hall i (hlen ▸ (hmemrev i).mp hi)) k ((hmemrev k).mpr hk)

theorem c4_split_target_witness :
    ([[((0 : ℚ), (0 : ℚ)), (1, 2)], [(3, 3)]] : List (List Point)).length
      = ([5, 4] : List ℚ).length ∧
    (∃ j, findMaxBin [[((0 : ℚ), (0 : ℚ)), (1, 2)], [(3, 3)]] [5, 4] = some j ∧
      j < ([5, 4] : List ℚ).length ∧
      ((∃ i, i < ([[((0 : ℚ), (0 : ℚ)), (1, 2)], [(3, 3)]] : List (List Point)).length ∧
          2 ≤ (([[((0 : ℚ), (0 : ℚ)), (1, 2)], [(3, 3)]] : List (List Point)).getD i []).length) →
        2 ≤ (([[((0 : ℚ), (0 : ℚ)), (1, 2)], [(3, 3)]] : List (List Point)).getD j []).length ∧
        ∀ k, k < ([5, 4] : List ℚ).length →
          2 ≤ (([[((0 : ℚ), (0 : ℚ)), (1, 2)], [(3, 3)]] : List (List Point)).getD k []).length →
          ([5, 4] : List ℚ).getD k 0 ≤ ([5, 4] : List ℚ).getD j 0) ∧
      ((∀ i, i < ([[((0 : ℚ), (0 : ℚ)), (1, 2)], [(3, 3)]] : List (List Point)).length →
          (([[((0 : ℚ), (0 : ℚ)), (1, 2)], [(3, 3)]] : List (List Point)).getD i []).length < 2) →
        ∀ k, k < ([5, 4] : List ℚ).length →
          ([5, 4] : List ℚ).getD j 0 ≤ ([5, 4] : List ℚ).getD k 0)) :=
  ⟨by decide, c4_split_target [[(0, 0), (1, 2)], [(3, 3)]] [5, 4] (by decide) (by decide)⟩

theorem firstMax_eq_none (l : List ℚ) (h : firstMax l = none) : l = [] := by
  cases l with
  | nil => rfl
  | cons x xs =>
    rw [firstMax] at h
    rcases hfm : firstMax xs with _ | km
    · rw [hfm] at h
      exact absurd h (by simp)
    · rw [hfm] at h
      obtain ⟨j, m⟩ := km
      by_cases hx : x < m <;> simp [hx] at h

theorem firstMax_spec (l : List ℚ) :
    ∀ k m, firstMax l = some (k, m) →
      l[k]? = some m ∧ (∀ q ∈ l, q ≤ m) ∧
      (∀ j, j < k → ∀ q, l[j]? = some q → q < m) := by
  induction l with
  | nil => intro k m h; exact absurd h (by simp [firstMax])
  | cons x xs ih =>
    intro k m h
    rw [firstMax] at h
    rcases hfm : firstMax xs with _ | km
    · rw [hfm] at h
      have hxs := firstMax_eq_none xs hfm
      subst hxs
      obtain ⟨rfl, rfl⟩ : k = 0 ∧ x = m := by
        constructor <;> [skip; skip] <;> injection h with h' <;> cases h' <;> rfl
      refine ⟨by simp, ?_, ?_⟩
      · intro q hq
        rw [List.mem_singleton] at hq
        exact hq.le
      · intro j hj
        omega
    · obtain ⟨j₀, m₀⟩ := km
      rw [hfm] at h
      obtain ⟨h0, h1, h2⟩ := ih j₀ m₀ hfm
      have h' : (if x < m₀ then some (j₀ + 1, m₀) else some (0, x)) = some (k, m) := h
      by_cases hx : x < m₀
      · rw [if_pos hx] at h'
        injection h' with h''
        obtain ⟨rfl, rfl⟩ : k = j₀ + 1 ∧ m₀ = m := by
          constructor <;> cases h'' <;> rfl
        refine ⟨?_, ?_, ?_⟩
        · simpa using h0
        · intro q hq
          rcases List.mem_cons.mp hq with hq | hq
          · exact hq ▸ hx.le
          · exact h1 q hq
        · intro j hj q hq
          cases j with
          | zero =>
            rw [List.getElem?_cons_zero] at hq
            injection hq with hq
            exact hq ▸ hx
          | succ j' =>
            rw [List.getElem?_cons_succ] at hq
            exact h2 j' (by omega) q hq
      · rw [if_neg hx] at h'
        injection h' with h''
        obtain ⟨rfl, rfl⟩ : k = 0 ∧ x = m := by
          constructor <;> cases h'' <;> rfl
        refine ⟨by simp, ?_, ?_⟩
        · intro q hq
          rcases List.mem_cons.mp hq with hq | hq
          · exact hq.le
          · exact (h1 q hq).trans (not_lt.mp hx)
        · intro j hj
          omega

theorem firstMax_isSome (l : List ℚ) (h : l ≠ []) : ∃ km, firstMax l = some km := by
  rcases hfm : firstMax l with _ | km
  · exact absurd (firstMax_eq_none l hfm) h
  · exact ⟨km, rfl⟩

/-- The code's broadcast area expression equals the spec's shoelace
formula for the triangle (prev_point, candidate, next_point). -/
theorem area_eq_shoelace (pre np p : Point) :
    areaOfTriangle pre np p = specShoelaceArea pre p np := by
  have h : (pre.1 - np.1) * (p.2 - pre.2) - (pre.1 - p.1) * (np.2 - pre.2)
      = pre.1 * (p.2 - np.2) + p.1 * (np.2 - pre.2) + np.1 * (pre.2 - p.2) := by
    ring
  rw [areaOfTriangle, specShoelaceArea, h]

/-- C7: in a bucket containing neither global extremum, the selection
returns a member of the bucket maximizing the shoelace area of the
triangle with the previous output point `out[i]` and the next point (the
centroid of bucket `i+1`, or the last data point for the final buckets),
and among maximizers it picks the first in bucket order. -/
theorem c7_triangle_selection (maxP minP lastP pre np : Point) (nBins i : ℕ)
    (binsAll : List (List Point)) (b : List Point) (out : List Point)
    (hmax : maxP ∉ b) (hmin : minP ∉ b) (hb : b ≠ [])
    (hpre : out[i]? = some pre)
    (hnext : (if i < nBins - 1 then (binsAll[i+1]?).bind mean else some lastP) = some np) :
    ∃ (p : Point) (k : ℕ), selectChoose maxP minP nBins lastP binsAll b i out = some p ∧
      b[k]? = some p ∧
      areaOfTriangle pre np p = specShoelaceArea pre p np ∧
      (∀ q ∈ b, specShoelaceArea pre q np ≤ specShoelaceArea pre p np) ∧
      (∀ j, j < k → ∀ q, b[j]? = some q →
        specShoelaceArea pre q np < specShoelaceArea pre p np) := by
  obtain ⟨⟨k, m⟩, hfm⟩ := firstMax_isSome (b.map fun p => areaOfTriangle pre np p)
    (by simpa using hb)
  obtain ⟨h0, h1, h2⟩ := firstMax_spec _ k m hfm
  rw [List.getElem?_map] at h0
  rcases hp : b[k]? with _ | p
  · rw [hp] at h0
    exact absurd h0 (by simp)
  · rw [hp] at h0
    have hm : areaOfTriangle pre np p = m := by
      simpa using h0
    have hrun : selectChoose maxP minP nBins lastP binsAll b i out = some p := by
      unfold selectChoose
      rw [if_neg hmax, if_neg hmin]
      by_cases hi : i < nBins - 1
      · rw [if_pos hi] at hnext
        obtain ⟨nb, hnb, hmean⟩ := Option.bind_eq_some.mp hnext
        simp only [if_pos hi, hnb, Option.bind_eq_bind, Option.some_bind, hpre, hmean, hfm, hp]
      · rw [if_neg hi] at hnext
        injection hnext with hnext
        subst hnext
        simp only [if_neg hi, Option.bind_eq_bind, Option.some_bind, hpre,
          mean_singleton, hfm, hp]
    refine ⟨p, k, hrun, hp, area_eq_shoelace pre np p, ?_, ?_⟩
    · intro q hq
      have : areaOfTriangle pre np q ≤ m :=
        h1 _ (List.mem_map_of_mem _ hq)
      rw [← area_eq_shoelace pre np q, ← area_eq_shoelace pre np p, hm]
      exact this
    · intro j hj q hq
      have : areaOfTriangle pre np q < m := by
        refine h2 j hj _ ?_
        rw [List.getElem?_map, hq]
        rfl
      rw [← area_eq_shoelace pre np q, ← area_eq_shoelace pre np p, hm]
      exact this

theorem c7_triangle_selection_witness :
    ((100 : ℚ), (100 : ℚ)) ∉ ([(1, 1), (2, 4)] : List Point) ∧
    (∃ (p : Point) (k : ℕ), selectChoose (100, 100) (200, 200) 1 (5, 5) [[(1, 1), (2, 4)]]
        [(1, 1), (2, 4)] 0 [(0, 0)] = some p ∧
      ([((1 : ℚ), (1 : ℚ)), (2, 4)] : List Point)[k]? = some p ∧
      areaOfTriangle (0, 0) (5, 5) p = specShoelaceArea (0, 0) p (5, 5) ∧
      (∀ q ∈ ([((1 : ℚ), (1 : ℚ)), (2, 4)] : List Point),
        specShoelaceArea (0, 0) q (5, 5) ≤ specShoelaceArea (0, 0) p (5, 5)) ∧
      (∀ j, j < k → ∀ q, ([((1 : ℚ), (1 : ℚ)), (2, 4)] : List Point)[j]? = some q →
        specShoelaceArea (0, 0) q (5, 5) < specShoelaceArea (0, 0) p (5, 5))) :=
  ⟨by decide,
    c7_triangle_selection (100, 100) (200, 200) (5, 5) (0, 0) (5, 5) 1 0
      [[(1, 1), (2, 4)]] [(1, 1), (2, 4)] [(0, 0)]
      (by decide) (by decide) (by decide) (by decide) (by decide)⟩

theorem chunks_flatten (l : List α) (ss : List ℕ) :
    (chunks l ss).flatten = l.take ss.sum := by
  induction ss generalizing l with
  | nil => simp [chunks]
  | cons s ss ih =>
    simp only [chunks, List.flatten_cons, ih, List.sum_cons, List.take_add]

theorem chunks_length (l : List α) (ss : List ℕ) : (chunks l ss).length = ss.length := by
  induction ss generalizing l with
  | nil => rfl
  | cons s ss ih => simp [chunks, ih]

theorem splitSizes_sum (q : ℕ) : ∀ k r, r ≤ k → (splitSizes q k r).sum = k * q + r
  | 0, 0, _ => by simp [splitSizes]
  | 0, r + 1, h => absurd h (by omega)
  | k + 1, 0, _ => by
    have := splitSizes_sum q k 0 (Nat.zero_le k)
    simp only [splitSizes, List.sum_cons, this]
    ring
  | k + 1, r + 1, h => by
    have := splitSizes_sum q k r (by omega)
    simp only [splitSizes, List.sum_cons, this]
    ring

theorem splitSizes_length (q : ℕ) : ∀ k r, (splitSizes q k r).length = k
  | 0, _ => rfl
  | k + 1, 0 => by simp [splitSizes, splitSizes_length q k 0]
  | k + 1, r + 1 => by simp [splitSizes, splitSizes_length q k r]

theorem arraySplit_flatten (l : List α) (k : ℕ) (parts : List (List α))
    (h : arraySplit l k = some parts) : parts.flatten = l := by
  unfold arraySplit at h
  by_cases hk : k = 0
  · rw [if_pos hk] at h
    cases h
  · rw [if_neg hk] at h
    injection h with h
    subst h
    rw [chunks_flatten, splitSizes_sum _ _ _ (Nat.mod_lt _ (Nat.pos_of_ne_zero hk)).le,
      Nat.div_add_mod, List.take_length]

theorem arraySplit_length (l : List α) (k : ℕ) (parts : List (List α))
    (h : arraySplit l k = some parts) : parts.length = k := by
  unfold arraySplit at h
  by_cases hk : k = 0
  · rw [if_pos hk] at h
    cases h
  · rw [if_neg hk] at h
    injection h with h
    subst h
    rw [chunks_length, splitSizes_length]

theorem arraySplit_mem (l : List α) (k : ℕ) (parts : List (List α))
    (h : arraySplit l k = some parts) : ∀ b ∈ parts, ∀ p ∈ b, p ∈ l := by
  intro b hb p hp
  have : p ∈ parts.flatten := List.mem_flatten.mpr ⟨b, hb, hp⟩
  rw [arraySplit_flatten l k parts h] at this
  exact this

theorem interior_subset (d : List Point) (p : Point) (hp : p ∈ interior d) : p ∈ d :=
  (List.drop_sublist 1 d).subset ((List.dropLast_sublist (d.drop 1)).subset hp)

theorem maxPointOf_mem (d : List Point) (p : Point) (h : maxPointOf d = some p) : p ∈ d := by
  unfold maxPointOf at h
  obtain ⟨m, _, hget⟩ := Option.bind_eq_some.mp h
  exact List.getElem?_mem hget

theorem minPointOf_mem (d : List Point) (p : Point) (h : minPointOf d = some p) : p ∈ d := by
  unfold minPointOf at h
  obtain ⟨m, _, hget⟩ := Option.bind_eq_some.mp h
  exact List.getElem?_mem hget

theorem selectChoose_mem (maxP minP : Point) (nBins : ℕ) (lastP : Point)
    (binsAll : List (List Point)) (b : List Point) (i : ℕ) (out : List Point)
    (p : Point) (h : selectChoose maxP minP nBins lastP binsAll b i out = some p) :
    p = maxP ∨ p = minP ∨ p ∈ b := by
  unfold selectChoose at h
  by_cases hmax : maxP ∈ b
  · rw [if_pos hmax] at h
    injection h with h
    exact Or.inl h.symm
  · rw [if_neg hmax] at h
    by_cases hmin : minP ∈ b
    · rw [if_pos hmin] at h
      injection h with h
      exact Or.inr (Or.inl h.symm)
    · rw [if_neg hmin] at h
      by_cases hi : i < nBins - 1 <;>
        [rw [if_pos hi] at h; rw [if_neg hi] at h] <;>
      · simp only [Option.bind_eq_bind, Option.bind_eq_some] at h
        obtain ⟨nb, -, pre, -, np, -, am, -, hget⟩ := h
        exact Or.inr (Or.inr (List.getElem?_mem hget))

theorem selectLoop_length (maxP minP : Point) (nBins : ℕ) (lastP : Point)
    (binsAll : List (List Point)) :
    ∀ (l : List (List Point)) (i : ℕ) (out res : List Point),
      selectLoop maxP minP nBins lastP binsAll l i out = some res →
      res.length = out.length
  | [], i, out, res, h => by
    injection h with h
    rw [← h]
  | b :: rest, i, out, res, h => by
    rw [selectLoop] at h
    by_cases hlt : i + 1 < out.length
    · rw [if_pos hlt] at h
      rcases hc : selectChoose maxP minP nBins lastP binsAll b i out with _ | p
      · rw [hc] at h
        cases h
      · rw [hc] at h
        have := selectLoop_length maxP minP nBins lastP binsAll rest (i + 1)
          (out.set (i + 1) p) res h
        rw [this, List.length_set]
    · rw [if_neg hlt] at h
      cases h

theorem selectLoop_getElem (maxP minP : Point) (nBins : ℕ) (lastP : Point)
    (binsAll : List (List Point)) :
    ∀ (l : List (List Point)) (i : ℕ) (out res : List Point),
      selectLoop maxP minP nBins lastP binsAll l i out = some res →
      ∀ (j : ℕ) (r : Point), res[j]? = some r →
        out[j]? = some r ∨
        ((r = maxP ∨ r = minP ∨ ∃ b ∈ l, r ∈ b) ∧ i < j ∧ j ≤ i + l.length)
  | [], i, out, res, h => by
    injection h with h
    subst h
    intro j r hj
    exact Or.inl hj
  | b :: rest, i, out, res, h => by
    rw [selectLoop] at h
    by_cases hlt : i + 1 < out.length
    · rw [if_pos hlt] at h
      rcases hc : selectChoose maxP minP nBins lastP binsAll b i out with _ | p
      · rw [hc] at h
        cases h
      · rw [hc] at h
        intro j r hj
        rcases selectLoop_getElem maxP minP nBins lastP binsAll rest (i + 1)
            (out.set (i + 1) p) res h j r hj with hout | ⟨hsrc, hlo, hhi⟩
        · by_cases hji : j = i + 1
          · subst hji
            rw [List.getElem?_set_eq (by omega)] at hout
            injection hout with hout
            refine Or.inr ⟨?_, by omega, by simp⟩
            rcases selectChoose_mem maxP minP nBins lastP binsAll b i out p hc with hh | hh | hh
            · exact Or.inl (hout ▸ hh ▸ rfl)
            · exact Or.inr (Or.inl (hout ▸ hh ▸ rfl))
            · exact Or.inr (Or.inr ⟨b, List.mem_cons_self .., hout ▸ hh⟩)
          · rw [List.getElem?_set_ne (fun hh => hji hh.symm)] at hout
            exact Or.inl hout
        · refine Or.inr ⟨?_, by omega, by simp; omega⟩
          rcases hsrc with hh | hh | ⟨b', hb', hh⟩
          · exact Or.inl hh
          · exact Or.inr (Or.inl hh)
          · exact Or.inr (Or.inr ⟨b', List.mem_cons_of_mem _ hb', hh⟩)
    · rw [if_neg hlt] at h
      cases h

theorem optTraverse_length (f : ℕ → Option β) :
    ∀ (l : List ℕ) (r : List β), optTraverse f l = some r → r.length = l.length
  | [], r, h => by
    injection h with h
    subst h
    rfl
  | i :: t, r, h => by
    rw [optTraverse] at h
    obtain ⟨b, -, h⟩ := Option.bind_eq_some.mp h
    obtain ⟨r', hr', h⟩ := Option.bind_eq_some.mp h
    injection h with h
    subst h
    simp [optTraverse_length f t r' hr']

theorem computeScores_length (d : List Point) (bins : List (List Point)) (s : List ℚ)
    (h : computeScores d bins = some s) : s.length = bins.length := by
  have := optTraverse_length _ _ _ h
  simpa using this

theorem findMaxLoop_mem (bins : List (List Point)) :
    ∀ (l : List ℕ) (j : ℕ), findMaxLoop bins l = some j → j ∈ l
  | [], j, h => by cases h
  | [j'], j, h => by
    injection h with h
    subst h
    exact List.mem_singleton_self j'
  | j' :: j'' :: rest, j, h => by
    have h' : (if 2 ≤ (bins.getD j' []).length then some j'
        else findMaxLoop bins (j'' :: rest)) = some j := h
    by_cases he : 2 ≤ (bins.getD j' []).length
    · rw [if_pos he] at h'
      injection h' with h'
      subst h'
      exact List.mem_cons_self ..
    · rw [if_neg he] at h'
      exact List.mem_cons_of_mem _ (findMaxLoop_mem bins (j'' :: rest) j h')

theorem findMaxBin_lt (bins : List (List Point)) (scores : List ℚ) (j : ℕ)
    (h : findMaxBin bins scores = some j) : j < scores.length := by
  have := findMaxLoop_mem bins _ _ h
  rw [List.mem_reverse] at this
  exact (argsortQ_mem scores j).mp this

theorem resizeGo_length (binsAll : List (List Point)) (maxI minI : ℕ) :
    ∀ (i : ℕ) (l res : List (List Point)),
      resizeGo binsAll maxI minI i l = some res →
      res.length
          + (if i ≤ minI + 1 ∧ minI + 1 < i + l.length ∧ minI + 1 ≠ maxI then 1 else 0)
        = l.length + (if i ≤ maxI ∧ maxI < i + l.length then 1 else 0)
  | i, [], res, h => by
    injection h with h
    subst h
    simp only [List.length_nil]
    split_ifs <;> omega
  | i, b :: rest, res, h => by
    rw [resizeGo] at h
    obtain ⟨tail, htail, hres⟩ := Option.bind_eq_some.mp h
    have ih := resizeGo_length binsAll maxI minI (i + 1) rest tail htail
    by_cases hmax : i = maxI
    · rw [if_pos hmax] at hres
      obtain ⟨halves, hh, hres⟩ := Option.bind_eq_some.mp hres
      injection hres with hres
      subst hres
      have h2 := arraySplit_length b 2 halves hh
      rw [List.length_append, h2, List.length_cons]
      split_ifs at ih ⊢ <;> omega
    · rw [if_neg hmax] at hres
      by_cases hmin : i = minI
      · rw [if_pos hmin] at hres
        obtain ⟨nb, -, hres⟩ := Option.bind_eq_some.mp hres
        injection hres with hres
        subst hres
        rw [List.length_cons, List.length_cons]
        split_ifs at ih ⊢ <;> omega
      · rw [if_neg hmin] at hres
        by_cases hmin1 : i = minI + 1
        · rw [if_pos hmin1] at hres
          injection hres with hres
          subst hres
          rw [List.length_cons]
          split_ifs at ih ⊢ <;> omega
        · rw [if_neg hmin1] at hres
          injection hres with hres
          subst hres
          rw [List.length_cons, List.length_cons]
          split_ifs at ih ⊢ <;> omega

theorem resizeGo_mem (binsAll : List (List Point)) (maxI minI : ℕ) (P : Point → Prop)
    (hAll : ∀ b ∈ binsAll, ∀ p ∈ b, P p) :
    ∀ (i : ℕ) (l res : List (List Point)),
      resizeGo binsAll maxI minI i l = some res →
      (∀ b ∈ l, ∀ p ∈ b, P p) →
      ∀ b ∈ res, ∀ p ∈ b, P p
  | i, [], res, h, _ => by
    injection h with h
    subst h
    intro b hb
    cases hb
  | i, b :: rest, res, h, hl => by
    rw [resizeGo] at h
    obtain ⟨tail, htail, hres⟩ := Option.bind_eq_some.mp h
    have hb0 : ∀ p ∈ b, P p := hl b (List.mem_cons_self ..)
    have hrest : ∀ b' ∈ rest, ∀ p ∈ b', P p := fun b' hb' => hl b' (List.mem_cons_of_mem _ hb')
    have ihtail := resizeGo_mem binsAll maxI minI P hAll (i + 1) rest tail htail hrest
    by_cases hmax : i = maxI
    · rw [if_pos hmax] at hres
      obtain ⟨halves, hh, hres⟩ := Option.bind_eq_some.mp hres
      injection hres with hres
      subst hres
      intro b' hb' p hp
      rcases List.mem_append.mp hb' with hb' | hb'
      · exact hb0 p (arraySplit_mem b 2 halves hh b' hb' p hp)
      · exact ihtail b' hb' p hp
    · rw [if_neg hmax] at hres
      by_cases hmin : i = minI
      · rw [if_pos hmin] at hres
        obtain ⟨nb, hnb, hres⟩ := Option.bind_eq_some.mp hres
        injection hres with hres
        subst hres
        intro b' hb' p hp
        rcases List.mem_cons.mp hb' with hb' | hb'
        · subst hb'
          rcases List.mem_append.mp hp with hp | hp
          · exact hb0 p hp
          · exact hAll nb (List.getElem?_mem hnb) p hp
        · exact ihtail b' hb' p hp
      · rw [if_neg hmin] at hres
        by_cases hmin1 : i = minI + 1
        · rw [if_pos hmin1] at hres
          injection hres with hres
          subst hres
          exact ihtail
        · rw [if_neg hmin1] at hres
          injection hres with hres
          subst hres
          intro b' hb' p hp
          rcases List.mem_cons.mp hb' with hb' | hb'
          · exact hb0 p (hb' ▸ hp)
          · exact ihtail b' hb' p hp

theorem resizeBins_inv (bins : List (List Point)) (scores : List ℚ) (bins' : List (List Point))
    (P : Point → Prop) (hlen : scores.length = bins.length)
    (h : resizeBins bins scores = some bins') (hmem : ∀ b ∈ bins, ∀ p ∈ b, P p) :
    (∀ b ∈ bins', ∀ p ∈ b, P p) ∧ bins.length ≤ bins'.length := by
  unfold resizeBins at h
  obtain ⟨maxI, hmaxI, h⟩ := Option.bind_eq_some.mp h
  obtain ⟨minI, -, h⟩ := Option.bind_eq_some.mp h
  refine ⟨resizeGo_mem bins maxI minI P hmem 0 bins bins' h hmem, ?_⟩
  have heq := resizeGo_length bins maxI minI 0 bins bins' h
  have hmax_lt : maxI < bins.length := hlen ▸ findMaxBin_lt bins scores maxI hmaxI
  split_ifs at heq <;> omega

theorem refineIter_inv (d : List Point) (P : Point → Prop) :
    ∀ (k : ℕ) (bins bins' : List (List Point)),
      refineIter d k bins = some bins' →
      (∀ b ∈ bins, ∀ p ∈ b, P p) →
      (∀ b ∈ bins', ∀ p ∈ b, P p) ∧ bins.length ≤ bins'.length
  | 0, bins, bins', h, hmem => by
    injection h with h
    subst h
    exact ⟨hmem, le_refl _⟩
  | k + 1, bins, bins', h, hmem => by
    rw [refineIter] at h
    obtain ⟨scores, hscores, h⟩ := Option.bind_eq_some.mp h
    obtain ⟨bins₁, hbins₁, h⟩ := Option.bind_eq_some.mp h
    have hlen := computeScores_length d bins scores hscores
    obtain ⟨hmem₁, hle₁⟩ := resizeBins_inv bins scores bins₁ P hlen hbins₁ hmem
    obtain ⟨hmem₂, hle₂⟩ := refineIter_inv d P k bins₁ bins' h hmem₁
    exact ⟨hmem₂, hle₁.trans hle₂⟩

theorem splitData_inv (d : List Point) (n : ℕ) (bins : List (List Point))
    (h : splitData d n = some bins) :
    (∀ b ∈ bins, ∀ p ∈ b, p ∈ d) ∧ n - 2 ≤ bins.length := by
  unfold splitData at h
  by_cases hn : n = 0
  · rw [if_pos hn] at h
    cases h
  · rw [if_neg hn] at h
    obtain ⟨bins₀, hbins₀, h⟩ := Option.bind_eq_some.mp h
    have hmem₀ : ∀ b ∈ bins₀, ∀ p ∈ b, p ∈ d := fun b hb p hp =>
      interior_subset d p (arraySplit_mem _ _ _ hbins₀ b hb p hp)
    obtain ⟨hmem, hle⟩ := refineIter_inv d (· ∈ d) _ bins₀ bins h hmem₀
    have hlen₀ := arraySplit_length _ _ _ hbins₀
    exact ⟨hmem, hlen₀ ▸ hle⟩

theorem selectLoop_written (maxP minP : Point) (nBins : ℕ) (lastP : Point)
    (binsAll : List (List Point)) :
    ∀ (l : List (List Point)) (i : ℕ) (out res : List Point),
      selectLoop maxP minP nBins lastP binsAll l i out = some res →
      ∀ j : ℕ, i < j → j ≤ i + l.length →
        ∃ p', res[j]? = some p' ∧ (p' = maxP ∨ p' = minP ∨ ∃ b ∈ l, p' ∈ b)
  | [], i, out, res, h, j, hlo, hhi => by
    exact absurd (hlo.trans_le (by simpa using hhi)) (lt_irrefl i)
  | b :: rest, i, out, res, h, j, hlo, hhi => by
    rw [selectLoop] at h
    by_cases hlt : i + 1 < out.length
    · rw [if_pos hlt] at h
      rcases hc : selectChoose maxP minP nBins lastP binsAll b i out with _ | p
      · rw [hc] at h
        cases h
      · rw [hc] at h
        by_cases hji : j = i + 1
        · subst hji
          have hreslen : res.length = out.length := by
            have := selectLoop_length maxP minP nBins lastP binsAll rest (i + 1)
              (out.set (i + 1) p) res h
            rw [this, List.length_set]
          obtain ⟨r, hr⟩ : ∃ r, res[i+1]? = some r := by
            have : i + 1 < res.length := hreslen ▸ hlt
            exact ⟨res[i+1], List.getElem?_eq_some.mpr ⟨this, rfl⟩⟩
          rcases selectLoop_getElem maxP minP nBins lastP binsAll rest (i + 1)
              (out.set (i + 1) p) res h (i + 1) r hr with hout | ⟨-, hlo', -⟩
          · rw [List.getElem?_set_eq (by omega)] at hout
            injection hout with hout
            subst hout
            refine ⟨p, hr, ?_⟩
            rcases selectChoose_mem maxP minP nBins lastP binsAll b i out p hc with hh | hh | hh
            · exact Or.inl hh
            · exact Or.inr (Or.inl hh)
            · exact Or.inr (Or.inr ⟨b, List.mem_cons_self .., hh⟩)
          · exact absurd hlo' (lt_irrefl _)
        · obtain ⟨p', hp', hsrc⟩ := selectLoop_written maxP minP nBins lastP binsAll rest
            (i + 1) (out.set (i + 1) p) res h j (by omega) (by simp at hhi; omega)
          refine ⟨p', hp', ?_⟩
          rcases hsrc with hh | hh | ⟨b', hb', hh⟩
          · exact Or.inl hh
          · exact Or.inr (Or.inl hh)
          · exact Or.inr (Or.inr ⟨b', List.mem_cons_of_mem _ hb', hh⟩)
    · rw [if_neg hlt] at h
      cases h

theorem runCore_mem (d : List Point) (n : ℕ) (bins : List (List Point)) (out : List Point)
    (hbins : ∀ b ∈ bins, ∀ p ∈ b, p ∈ d) (hlen : n - 2 ≤ bins.length)
    (h : runCore d n bins = some out) : ∀ r ∈ out, r ∈ d := by
  unfold runCore at h
  obtain ⟨first, hfirst, h⟩ := Option.bind_eq_some.mp h
  obtain ⟨last, hlast, h⟩ := Option.bind_eq_some.mp h
  obtain ⟨maxP, hmaxP, h⟩ := Option.bind_eq_some.mp h
  obtain ⟨minP, hminP, h⟩ := Option.bind_eq_some.mp h
  have hfirstd : first ∈ d := List.getElem?_mem hfirst
  have hlastd : last ∈ d := List.mem_of_mem_getLast? hlast
  have hmaxd : maxP ∈ d := maxPointOf_mem d maxP hmaxP
  have hmind : minP ∈ d := minPointOf_mem d minP hminP
  have hout0len : (((List.replicate n ((0:ℚ), (0:ℚ))).set 0 first).set (n - 1) last).length
      = n := by
    rw [List.length_set, List.length_set, List.length_replicate]
  intro r hr
  obtain ⟨j, hj⟩ := List.getElem?_of_mem hr
  have hsrc : ∀ p', (p' = maxP ∨ p' = minP ∨ ∃ b ∈ bins, p' ∈ b) → p' ∈ d := by
    rintro p' (rfl | rfl | ⟨b, hb, hp⟩)
    · exact hmaxd
    · exact hmind
    · exact hbins b hb p' hp
  by_cases hj0 : j = 0
  · subst hj0
    rcases selectLoop_getElem maxP minP (n - 2) last bins bins 0 _ out h 0 r hj with
      hout | ⟨hgood, hlo, -⟩
    · have h0n : 0 < n := by
        by_contra h0
        have hn0 : n = 0 := by omega
        rw [List.getElem?_eq_none_iff.mpr (by rw [hout0len, hn0])] at hout
        cases hout
      by_cases hn1 : n - 1 = 0
      · rw [hn1, List.getElem?_set_eq (by rw [List.length_set, List.length_replicate]; omega)]
          at hout
        injection hout with hout
        exact hout ▸ hlastd
      · rw [List.getElem?_set_ne (fun hh => hn1 hh),
          List.getElem?_set_eq (by rw [List.length_replicate]; omega)] at hout
        injection hout with hout
        exact hout ▸ hfirstd
    · exact absurd hlo (lt_irrefl 0)
  · by_cases hjb : j ≤ bins.length
    · obtain ⟨p', hp', hgood⟩ := selectLoop_written maxP minP (n - 2) last bins bins 0 _ out h
        j (by omega) (by omega)
      rw [hp'] at hj
      injection hj with hj
      exact hj ▸ hsrc p' hgood
    · rcases selectLoop_getElem maxP minP (n - 2) last bins bins 0 _ out h j r hj with
        hout | ⟨hgood, -, hhi⟩
      · have hjn : j < n := by
          by_contra hjn
          rw [List.getElem?_eq_none_iff.mpr (by rw [hout0len]; omega)] at hout
          cases hout
        have hjn1 : j = n - 1 := by omega
        rw [hjn1, List.getElem?_set_eq (by rw [List.length_set, List.length_replicate]; omega)]
          at hout
        injection hout with hout
        exact hout ▸ hlastd
      · exact absurd hhi (by omega)

/-- C10: whenever either variant returns an output, every row of that
output is a row of the input series: no synthesized point (centroid,
interpolation, or zero filler) ever reaches the output. -/
theorem c10_rows_from_input (d : List Point) (n : ℕ) (out : List Point) :
    (lttb d n = RunResult.ok out → ∀ r ∈ out, r ∈ d) ∧
    (ltd d n = RunResult.ok out → ∀ r ∈ out, r ∈ d) := by
  have hgen : ∀ split : List Point → ℕ → Option (List (List Point)),
      (∀ bins, split d n = some bins → (∀ b ∈ bins, ∀ p ∈ b, p ∈ d) ∧ n - 2 ≤ bins.length) →
      runAlgo split d n = RunResult.ok out → ∀ r ∈ out, r ∈ d := by
    intro split hsplit h
    unfold runAlgo at h
    by_cases h1 : sortCheckFails d
    · rw [if_pos h1] at h
      cases h
    · rw [if_neg h1] at h
      by_cases h2 : d.length < n
      · rw [if_pos h2] at h
        cases h
      · rw [if_neg h2] at h
        by_cases h3 : n = d.length
        · rw [if_pos h3] at h
          injection h with h
          subst h
          exact fun r hr => hr
        · rw [if_neg h3] at h
          by_cases h4 : n < 3
          · rw [if_pos h4] at h
            cases h
          · rw [if_neg h4] at h
            rcases hs : split d n with _ | bins
            · rw [hs] at h
              cases h
            · rw [hs] at h
              have h' : (match runCore d n bins with
                  | none => RunResult.crash
                  | some out => RunResult.ok out) = RunResult.ok out := h
              rcases hc : runCore d n bins with _ | res
              · rw [hc] at h'
                cases h'
              · rw [hc] at h'
                injection h' with h'
                subst h'
                obtain ⟨hmem, hle⟩ := hsplit bins hs
                exact runCore_mem d n bins res hmem hle hc
  constructor
  · refine hgen _ ?_
    intro bins hs
    exact ⟨fun b hb p hp => interior_subset d p (arraySplit_mem _ _ _ hs b hb p hp),
      (arraySplit_length _ _ _ hs) ▸ le_refl _⟩
  · exact hgen _ (fun bins hs => splitData_inv d n bins hs)

theorem c10_rows_from_input_witness :
    ∀ r ∈ [((0 : ℚ), (0 : ℚ)), (0, 1), (2, 3)], r ∈ dataDup :=
  (c10_rows_from_input dataDup 3 [(0, 0), (0, 1), (2, 3)]).1 hlttbDup

end DownSample
